import Mathlib

/-!
Verification of the availability-resolution and date-normalization logic of
the mews-availability serverless handler (api/mews-availability.js, final
variant with the boundary workaround).

Calendar days are represented by their day number (days since an epoch, a
natural number).  For date strings of the form YYYY-MM-DD this representation
is faithful: lexicographic order on the strings coincides with day-number
order, and the handler's addOneDay (UTC Date increment followed by
toISOString and truncation) is day-number successor.  The JavaScript Set of
date strings is represented by its insertion-order list of day numbers
(duplicate-free by Set semantics); Array.from(set).sort() is represented by
an ascending sort of that list.
-/

/-- Ascending sort of a list of day numbers: models Array.from(set).sort() on
YYYY-MM-DD strings (string sort is lexicographic, which on such strings is
chronological order). -/
def sortAsc (l : List ℕ) : List ℕ := List.insertionSort (· ≤ ·) l

theorem sortAsc_perm (l : List ℕ) : (sortAsc l).Perm l :=
  List.perm_insertionSort (· ≤ ·) l

theorem mem_sortAsc {x : ℕ} {l : List ℕ} : x ∈ sortAsc l ↔ x ∈ l :=
  (sortAsc_perm l).mem_iff

theorem sortAsc_sorted (l : List ℕ) : (sortAsc l).Sorted (· ≤ ·) :=
  List.sorted_insertionSort (· ≤ ·) l

theorem sortAsc_nodup {l : List ℕ} (h : l.Nodup) : (sortAsc l).Nodup :=
  (sortAsc_perm l).nodup_iff.mpr h

theorem sortAsc_sorted_lt {l : List ℕ} (h : l.Nodup) :
    (sortAsc l).Sorted (· < ·) :=
  (sortAsc_sorted l).lt_of_le (sortAsc_nodup h)

/-- Two sorted duplicate-free lists with the same members are equal. -/
theorem sorted_nodup_ext {l1 l2 : List ℕ} (s1 : l1.Sorted (· ≤ ·))
    (n1 : l1.Nodup) (s2 : l2.Sorted (· ≤ ·)) (n2 : l2.Nodup)
    (h : ∀ x, x ∈ l1 ↔ x ∈ l2) : l1 = l2 :=
  List.eq_of_perm_of_sorted ((List.perm_ext_iff_of_nodup n1 n2).mpr h) s1 s2

/-!
## The boundary-correction workaround (api/mews-availability.js, final
variant, the WORKAROUND block)

The loop walks the sorted array of initially-unavailable days.  An index `i`
is the last of a consecutive block when it is the last index or when
`addOneDay(sortedDates[i]) !== sortedDates[i+1]`; for such a day the loop adds
`addOneDay(sortedDates[i])` to the final set when it is not already a member
of the initial set.  `blockEnds` below collects, for a sorted list, exactly
the successors added by that loop, in order.
-/

/-- Successors of the last days of maximal consecutive blocks, collected from
the sorted unavailable list as in the workaround loop of the handler. -/
def blockEnds : List ℕ → List ℕ
  | [] => []
  | [d] => [d + 1]
  | d :: d2 :: rest =>
    if d + 1 = d2 then blockEnds (d2 :: rest) else (d + 1) :: blockEnds (d2 :: rest)

/-- The full workaround transform on the contents of the initial Set of
unavailable days (`raw`, an insertion-order duplicate-free list): copy the
initial set, add the successor of each block-last day that is not already
present, and return the sorted final array. -/
def correctTransform (raw : List ℕ) : List ℕ :=
  sortAsc (raw ++ (blockEnds (sortAsc raw)).filter (fun x => !(raw.contains x)))

theorem mem_blockEnds_weak : ∀ l : List ℕ, ∀ y ∈ blockEnds l, ∃ e ∈ l, y = e + 1
  | [], y, hy => by simp [blockEnds] at hy
  | [d], y, hy => by
      simp [blockEnds] at hy
      exact ⟨d, by simp, hy⟩
  | d :: d2 :: rest, y, hy => by
      by_cases h : d + 1 = d2
      · simp only [blockEnds, if_pos h] at hy
        obtain ⟨e, he, hye⟩ := mem_blockEnds_weak (d2 :: rest) y hy
        exact ⟨e, by simp [List.mem_cons] at he ⊢; tauto, hye⟩
      · simp only [blockEnds, if_neg h, List.mem_cons] at hy
        rcases hy with rfl | hy
        · exact ⟨d, by simp, rfl⟩
        · obtain ⟨e, he, hye⟩ := mem_blockEnds_weak (d2 :: rest) y hy
          exact ⟨e, by simp [List.mem_cons] at he ⊢; tauto, hye⟩

theorem blockEnds_sorted : ∀ l : List ℕ, l.Sorted (· < ·) →
    (blockEnds l).Sorted (· < ·)
  | [], _ => by simp [blockEnds]
  | [d], _ => by simp [blockEnds]
  | d :: d2 :: rest, h => by
      have hd2 : d < d2 := (List.sorted_cons.mp h).1 d2 (by simp)
      have htail : (d2 :: rest).Sorted (· < ·) := (List.sorted_cons.mp h).2
      have ih := blockEnds_sorted (d2 :: rest) htail
      by_cases hc : d + 1 = d2
      · simpa [blockEnds, if_pos hc] using ih
      · have hd2' : d + 2 ≤ d2 := by omega
        simp only [blockEnds, if_neg hc]
        refine List.sorted_cons.mpr ⟨?_, ih⟩
        intro y hy
        obtain ⟨e, he, rfl⟩ := mem_blockEnds_weak (d2 :: rest) y hy
        have : d2 ≤ e := by
          rcases List.mem_cons.mp he with rfl | hmem
          · exact le_refl _
          · exact le_of_lt ((List.sorted_cons.mp htail).1 e hmem)
        omega

theorem blockEnds_nodup {l : List ℕ} (h : l.Sorted (· < ·)) :
    (blockEnds l).Nodup :=
  (blockEnds_sorted l h).nodup

/-- Membership in `blockEnds` of a strictly sorted list: exactly the
successors of members whose successor is absent. -/
theorem mem_blockEnds_iff : ∀ l : List ℕ, l.Sorted (· < ·) → ∀ x : ℕ,
    (x ∈ blockEnds l ↔ ∃ d ∈ l, x = d + 1 ∧ d + 1 ∉ l)
  | [], _, x => by simp [blockEnds]
  | [d], _, x => by
      constructor
      · intro hx
        simp [blockEnds] at hx
        exact ⟨d, by simp, hx, by simp⟩
      · rintro ⟨e, he, rfl, hne⟩
        simp at he
        subst he
        simp [blockEnds]
  | d :: d2 :: rest, h, x => by
      have hd2 : d < d2 := (List.sorted_cons.mp h).1 d2 (by simp)
      have htail : (d2 :: rest).Sorted (· < ·) := (List.sorted_cons.mp h).2
      have htr : ∀ y ∈ rest, d2 < y := (List.sorted_cons.mp htail).1
      have ih := mem_blockEnds_iff (d2 :: rest) htail x
      by_cases hc : d + 1 = d2
      · rw [blockEnds, if_pos hc, ih]
        constructor
        · rintro ⟨e, he, rfl, hne⟩
          refine ⟨e, by simp [List.mem_cons] at he ⊢; tauto, rfl, ?_⟩
          intro hmem
          rcases List.mem_cons.mp hmem with heq | hmem2
          · -- e + 1 = d, impossible: e ≥ d2 > d
            have : d2 ≤ e := by
              rcases List.mem_cons.mp he with rfl | hm
              · exact le_refl _
              · exact le_of_lt (htr e hm)
            omega
          · exact hne hmem2
        · rintro ⟨e, he, rfl, hne⟩
          have hed : e ≠ d := by
            rintro rfl
            exact hne (by simp [List.mem_cons]; omega)
          refine ⟨e, ?_, rfl, ?_⟩
          · rcases List.mem_cons.mp he with rfl | hm
            · exact absurd rfl hed
            · exact hm
          · intro hmem
            exact hne (List.mem_cons.mpr (Or.inr hmem))
      · rw [blockEnds, if_neg hc]
        constructor
        · intro hx
          rcases List.mem_cons.mp hx with rfl | hx2
          · refine ⟨d, by simp, rfl, ?_⟩
            intro hmem
            rcases List.mem_cons.mp hmem with heq | hmem2
            · omega
            · rcases List.mem_cons.mp hmem2 with heq | hmem3
              · exact hc heq
              · have := htr _ hmem3
                omega
          · obtain ⟨e, he, rfl, hne⟩ := (ih.mp hx2)
            refine ⟨e, List.mem_cons.mpr (Or.inr he), rfl, ?_⟩
            intro hmem
            rcases List.mem_cons.mp hmem with heq | hmem2
            · have : d2 ≤ e := by
                rcases List.mem_cons.mp he with rfl | hm
                · exact le_refl _
                · exact le_of_lt (htr e hm)
              omega
            · exact hne hmem2
        · rintro ⟨e, he, rfl, hne⟩
          rcases List.mem_cons.mp he with rfl | hm
          · exact List.mem_cons.mpr (Or.inl rfl)
          · refine List.mem_cons.mpr (Or.inr (ih.mpr ⟨e, hm, rfl, ?_⟩))
            intro hmem
            exact hne (List.mem_cons.mpr (Or.inr hmem))

/-- Semantic characterization of the workaround transform on a duplicate-free
initial set: the result contains exactly the initial days and all their
successors. -/
theorem mem_correctTransform {raw : List ℕ} (hnd : raw.Nodup) (x : ℕ) :
    x ∈ correctTransform raw ↔ x ∈ raw ∨ ∃ d ∈ raw, x = d + 1 := by
  unfold correctTransform
  rw [mem_sortAsc, List.mem_append, List.mem_filter]
  have hs := sortAsc_sorted_lt hnd
  rw [mem_blockEnds_iff _ hs x]
  constructor
  · rintro (hx | ⟨⟨d, hd, rfl, _⟩, _⟩)
    · exact Or.inl hx
    · exact Or.inr ⟨d, mem_sortAsc.mp hd, rfl⟩
  · rintro (hx | ⟨d, hd, rfl⟩)
    · exact Or.inl hx
    · by_cases hmem : d + 1 ∈ raw
      · exact Or.inl hmem
      · refine Or.inr ⟨⟨d, mem_sortAsc.mpr hd, rfl, ?_⟩, ?_⟩
        · intro hc
          exact hmem (mem_sortAsc.mp hc)
        · simpa using hmem

theorem correctTransform_nodup {raw : List ℕ} (hnd : raw.Nodup) :
    (correctTransform raw).Nodup := by
  unfold correctTransform
  apply sortAsc_nodup
  refine List.Nodup.append hnd ((blockEnds_nodup (sortAsc_sorted_lt hnd)).filter _) ?_
  intro x hx hfil
  rw [List.mem_filter] at hfil
  simp at hfil
  exact hfil.2 hx

theorem correctTransform_sorted (raw : List ℕ) :
    (correctTransform raw).Sorted (· ≤ ·) :=
  sortAsc_sorted _

/-- The days `d, d+1, ..., d+n-1`: a run of `n` consecutive calendar days
starting at `d`, listed ascending. -/
def dayRun (d n : ℕ) : List ℕ := (List.range n).map (d + ·)

theorem mem_dayRun {d n x : ℕ} : x ∈ dayRun d n ↔ d ≤ x ∧ x < d + n := by
  simp only [dayRun, List.mem_map, List.mem_range]
  constructor
  · rintro ⟨a, ha, rfl⟩
    omega
  · intro h
    exact ⟨x - d, by omega, by omega⟩

theorem dayRun_nodup (d n : ℕ) : (dayRun d n).Nodup :=
  List.Nodup.map (fun a b h => by omega) (List.nodup_range n)

theorem dayRun_sorted (d n : ℕ) : (dayRun d n).Sorted (· ≤ ·) := by
  unfold dayRun
  rw [List.Sorted, List.pairwise_map]
  exact (List.pairwise_lt_range n).imp (fun h => by omega)

/-- C1 counterexample: the boundary-correction transform is not idempotent.
On the raw set containing the single day 0, one application yields the set
containing days 0 and 1, but a second application adds day 2: re-running the
transform on its own output adds a further day. -/
theorem mews_c1_counterexample :
    correctTransform (correctTransform [0]) ≠ correctTransform [0] := by
  decide

/-- C1 (amended): the boundary-correction transform is idempotent exactly on
the empty raw unavailable-day set; on every nonempty duplicate-free raw set a
second application adds the successor of each extended run's new last day, so
re-applying the transform to its own output grows the set. -/
theorem mews_c1_idempotent_iff_empty (raw : List ℕ) (hnd : raw.Nodup) :
    correctTransform (correctTransform raw) = correctTransform raw ↔ raw = [] := by
  constructor
  · intro heq
    by_contra hraw
    have hne : raw.toFinset.Nonempty := by
      cases raw with
      | nil => exact absurd rfl hraw
      | cons a t => exact ⟨a, by simp⟩
    set M := raw.toFinset.max' hne with hMdef
    have hM : M ∈ raw := List.mem_toFinset.mp (raw.toFinset.max'_mem hne)
    have hle : ∀ y ∈ raw, y ≤ M := fun y hy =>
      Finset.le_max' _ y (List.mem_toFinset.mpr hy)
    have h1 : M + 1 ∈ correctTransform raw :=
      (mem_correctTransform hnd _).mpr (Or.inr ⟨M, hM, rfl⟩)
    have hnd2 := correctTransform_nodup hnd
    have h2 : M + 2 ∈ correctTransform (correctTransform raw) :=
      (mem_correctTransform hnd2 _).mpr (Or.inr ⟨M + 1, h1, rfl⟩)
    rw [heq] at h2
    rcases (mem_correctTransform hnd _).mp h2 with h | ⟨e, he, hEq⟩
    · have := hle _ h
      omega
    · have heM : e = M + 1 := by omega
      subst heM
      have := hle _ he
      omega
  · rintro rfl
    rfl

/-- C1 witness for the amended theorem, at the concrete nonempty raw set
containing day 5 (both sides of the equivalence are false there). -/
theorem mews_c1_idempotent_iff_empty_witness :
    correctTransform (correctTransform [5]) = correctTransform [5] ↔ [5] = ([] : List ℕ) :=
  mews_c1_idempotent_iff_empty [5] (by decide)

/-- C3: if the raw unavailable set is a single run of k consecutive days
d, d+1, ..., d+k-1 with k ≥ 1, the corrected set produced by the
boundary-correction transform is exactly the k+1 consecutive days
d, ..., d+k. -/
theorem mews_c3_single_run (d k : ℕ) (hk : 1 ≤ k) :
    correctTransform (dayRun d k) = dayRun d (k + 1) := by
  apply sorted_nodup_ext (correctTransform_sorted _)
    (correctTransform_nodup (dayRun_nodup d k)) (dayRun_sorted d (k + 1))
    (dayRun_nodup d (k + 1))
  intro x
  rw [mem_correctTransform (dayRun_nodup d k)]
  simp only [mem_dayRun]
  constructor
  · rintro (hx | ⟨e, he, rfl⟩) <;> omega
  · intro hx
    by_cases hlt : x < d + k
    · exact Or.inl ⟨hx.1, hlt⟩
    · exact Or.inr ⟨d + k - 1, by omega, by omega⟩

/-- C3 witness: the single run 7, 8, 9 (d = 7, k = 3) is corrected to
7, 8, 9, 10. -/
theorem mews_c3_single_run_witness :
    correctTransform (dayRun 7 3) = dayRun 7 4 :=
  mews_c3_single_run 7 3 (by decide)

/-- C8: the output of the boundary-correction transform is a superset of the
raw input set — the transform only ever adds synthesized days and never
removes or alters a day of the raw set. -/
theorem mews_c8_superset (raw : List ℕ) : raw ⊆ correctTransform raw := by
  intro x hx
  unfold correctTransform
  exact mem_sortAsc.mpr (List.mem_append_left _ hx)

/-!
## Response interpretation (api/mews-availability.js, final variant, step 6)

The upstream JSON availability entries may be any JSON value; the handler
checks `typeof availableCount === 'number' && availableCount <= 0` before
marking a day unavailable.  Availability entries are modelled by `JsonVal`;
the per-day boundary timestamps are modelled by their calendar-day numbers
(the handler reduces each timestamp to its date part with substring(0, 10)).
-/

/-- A JSON value as found in an upstream availability series entry. -/
inductive JsonVal where
  | num (n : Int)
  | str (s : String)
  | null
  | bool (b : Bool)
  deriving DecidableEq, Repr

/-- The check
`typeof availableCount === 'number' && availableCount <= 0`. -/
def isUnavailCount : JsonVal → Bool
  | .num n => n ≤ 0
  | _ => false

/-- JavaScript Set.add on the insertion-order list representation. -/
def setAdd (l : List ℕ) (x : ℕ) : List ℕ :=
  if x ∈ l then l else l ++ [x]

/-- The forEach loop of step 6: walk the (boundary day, availability entry)
pairs in order and add the day to the Set when the entry is a number ≤ 0. -/
def rawFromPairs (pairs : List (ℕ × JsonVal)) : List ℕ :=
  pairs.foldl (fun l p => if isUnavailCount p.2 then setAdd l p.1 else l) []

theorem mem_setAdd {l : List ℕ} {x y : ℕ} :
    y ∈ setAdd l x ↔ y ∈ l ∨ y = x := by
  unfold setAdd
  split
  · constructor
    · exact Or.inl
    · rintro (h | rfl)
      · exact h
      · assumption
  · simp [List.mem_append]

theorem setAdd_nodup {l : List ℕ} {x : ℕ} (h : l.Nodup) :
    (setAdd l x).Nodup := by
  unfold setAdd
  split
  · exact h
  · exact List.Nodup.append h (List.nodup_singleton x) (by simpa using fun hc => by simp_all)

theorem mem_rawFromPairs_aux (pairs : List (ℕ × JsonVal)) :
    ∀ (acc : List ℕ) (x : ℕ),
    (x ∈ pairs.foldl (fun l p => if isUnavailCount p.2 then setAdd l p.1 else l) acc ↔
      x ∈ acc ∨ ∃ p ∈ pairs, isUnavailCount p.2 = true ∧ p.1 = x) := by
  induction pairs with
  | nil => simp
  | cons q rest ih =>
    intro acc x
    simp only [List.foldl_cons]
    by_cases hq : isUnavailCount q.2
    · rw [if_pos hq, ih, mem_setAdd]
      constructor
      · rintro ((h | rfl) | ⟨p, hp, hu, rfl⟩)
        · exact Or.inl h
        · exact Or.inr ⟨q, by simp, hq, rfl⟩
        · exact Or.inr ⟨p, by simp [hp], hu, rfl⟩
      · rintro (h | ⟨p, hp, hu, rfl⟩)
        · exact Or.inl (Or.inl h)
        · rcases List.mem_cons.mp hp with rfl | hp2
          · exact Or.inl (Or.inr rfl)
          · exact Or.inr ⟨p, hp2, hu, rfl⟩
    · rw [if_neg hq, ih]
      constructor
      · rintro (h | ⟨p, hp, hu, rfl⟩)
        · exact Or.inl h
        · exact Or.inr ⟨p, by simp [hp], hu, rfl⟩
      · rintro (h | ⟨p, hp, hu, rfl⟩)
        · exact Or.inl h
        · rcases List.mem_cons.mp hp with rfl | hp2
          · exact absurd hu (by simpa using hq)
          · exact Or.inr ⟨p, hp2, hu, rfl⟩

theorem mem_rawFromPairs {pairs : List (ℕ × JsonVal)} {x : ℕ} :
    x ∈ rawFromPairs pairs ↔ ∃ p ∈ pairs, isUnavailCount p.2 = true ∧ p.1 = x := by
  rw [rawFromPairs, mem_rawFromPairs_aux]
  simp

theorem rawFromPairs_nodup (pairs : List (ℕ × JsonVal)) :
    (rawFromPairs pairs).Nodup := by
  unfold rawFromPairs
  generalize hacc : ([] : List ℕ) = acc
  have : acc.Nodup := by rw [← hacc]; exact List.nodup_nil
  clear hacc
  induction pairs generalizing acc with
  | nil => simpa
  | cons q rest ih =>
    simp only [List.foldl_cons]
    by_cases hq : isUnavailCount q.2
    · rw [if_pos hq]
      exact ih _ (setAdd_nodup this)
    · rw [if_neg hq]
      exact ih _ this

/-- One entry of CategoryAvailabilities in the upstream report. -/
structure CategoryAvailability where
  CategoryId : String
  Availabilities : List JsonVal
  deriving DecidableEq

/-- The upstream report shape inspected by the handler.  The two candidate
time-unit fields of the final variant
(`TimeUnitStartsUtc`, with `DatesUtc` as fallback) carry boundary timestamps,
modelled by their calendar-day numbers; `none` models a missing or non-array
field. -/
structure MewsData where
  TimeUnitStartsUtc : Option (List ℕ)
  DatesUtc : Option (List ℕ)
  CategoryAvailabilities : Option (List CategoryAvailability)
  deriving DecidableEq

/-- The time-unit field selection
`mewsData.TimeUnitStartsUtc ? 'TimeUnitStartsUtc' : (mewsData.DatesUtc ? 'DatesUtc' : null)`. -/
def chosenDates (m : MewsData) : Option (List ℕ) :=
  match m.TimeUnitStartsUtc with
  | some l => some l
  | none => m.DatesUtc

/-- The anomalies reported via console.warn in step 6. -/
inductive Anomaly where
  | categoryNotFound
  | lengthMismatch
  | structureUnexpected
  deriving DecidableEq, Repr

/-- Step 6 of the handler: locate the target category by exact identifier
match, check the series length against the boundary sequence length, and
collect the initially-unavailable days; anomalies yield the empty set plus a
warning, never a failure. -/
def processMews (m : MewsData) (targetId : String) : List ℕ × Option Anomaly :=
  match chosenDates m, m.CategoryAvailabilities with
  | some dates, some cats =>
    match cats.find? (fun c => c.CategoryId == targetId) with
    | some cat =>
      if cat.Availabilities.length = dates.length then
        (rawFromPairs (dates.zip cat.Availabilities), none)
      else ([], some .lengthMismatch)
    | none => ([], some .categoryNotFound)
  | _, _ => ([], some .structureUnexpected)

/-- The caller-visible success reply of the handler together with the warning
(if any) emitted while producing it. -/
structure ResolverResponse where
  status : ℕ
  unavailable : List ℕ
  anomaly : Option Anomaly
  deriving DecidableEq

/-- Steps 6 and 7 of the handler after a successful upstream call: process
the report, apply the boundary-correction workaround, and reply 200 with the
sorted final array. -/
def resolveOk (m : MewsData) (targetId : String) : ResolverResponse :=
  { status := 200
    unavailable := correctTransform (processMews m targetId).1
    anomaly := (processMews m targetId).2 }

theorem processMews_subset_dates {m : MewsData} {targetId : String} {x : ℕ}
    (hx : x ∈ (processMews m targetId).1) :
    ∃ dates, chosenDates m = some dates ∧ x ∈ dates := by
  unfold processMews at hx
  split at hx
  · rename_i dates cats hd hc
    split at hx
    · rename_i cat hf
      split at hx
      · rename_i hlen
        simp only at hx
        obtain ⟨p, hp, _, rfl⟩ := mem_rawFromPairs.mp hx
        exact ⟨dates, hd, (List.of_mem_zip hp).1⟩
      · simp at hx
    · simp at hx
  · simp at hx

theorem processMews_nodup (m : MewsData) (targetId : String) :
    (processMews m targetId).1.Nodup := by
  unfold processMews
  split
  · split
    · split
      · exact rawFromPairs_nodup _
      · exact List.nodup_nil
    · exact List.nodup_nil
  · exact List.nodup_nil

/-- A report whose boundary day 20 lies outside the queried range 10..12:
the handler does not clip upstream days to the requested range. -/
def reportOffRange : MewsData :=
  { TimeUnitStartsUtc := some [20]
    DatesUtc := none
    CategoryAvailabilities := some [{ CategoryId := "cat-1", Availabilities := [JsonVal.num 0] }] }

/-- C4 counterexample: for the valid query range 10 ≤ 12, an upstream report
carrying the boundary day 20 (allowed by the data model, which only requires
the report to cover at least the requested range) makes the resolver output
contain day 21, which is outside the closed range from 10 to 12 + 1.  The
handler never restricts upstream days to the query range. -/
theorem mews_c4_counterexample :
    10 ≤ 12 ∧ 21 ∈ (resolveOk reportOffRange "cat-1").unavailable ∧
      ¬(21 ≤ 12 + 1) := by
  decide

/-- C4 (amended): for every valid query with startDate ≤ endDate, provided
every boundary day of the upstream report lies within the queried range, the
resolver's final output is sorted ascending, duplicate-free, and every
output day lies within the closed range from startDate to endDate + 1. -/
theorem mews_c4_sorted_range (m : MewsData) (targetId : String) (s e : ℕ)
    (_hse : s ≤ e)
    (hrange : ∀ dates, chosenDates m = some dates → ∀ b ∈ dates, s ≤ b ∧ b ≤ e) :
    ((resolveOk m targetId).unavailable).Sorted (· ≤ ·) ∧
    ((resolveOk m targetId).unavailable).Nodup ∧
    ∀ x ∈ (resolveOk m targetId).unavailable, s ≤ x ∧ x ≤ e + 1 := by
  refine ⟨correctTransform_sorted _,
    correctTransform_nodup (processMews_nodup m targetId), ?_⟩
  intro x hx
  have hx2 : x ∈ correctTransform (processMews m targetId).1 := hx
  rcases (mem_correctTransform (processMews_nodup m targetId) x).mp hx2 with
    h | ⟨d, hd, rfl⟩
  · obtain ⟨dates, hcd, hmem⟩ := processMews_subset_dates h
    have := hrange dates hcd _ hmem
    omega
  · obtain ⟨dates, hcd, hmem⟩ := processMews_subset_dates hd
    have := hrange dates hcd _ hmem
    omega

/-- A report whose two boundary days 10 and 11 lie inside the queried range
10..11, with day 10 fully booked for category cat-1. -/
def reportInRange : MewsData :=
  { TimeUnitStartsUtc := some [10, 11]
    DatesUtc := none
    CategoryAvailabilities :=
      some [{ CategoryId := "cat-1", Availabilities := [JsonVal.num 0, JsonVal.num 2] }] }

/-- C4 witness: concrete instance of the amended range/sortedness theorem. -/
theorem mews_c4_sorted_range_witness :
    ((resolveOk reportInRange "cat-1").unavailable).Sorted (· ≤ ·) ∧
    ((resolveOk reportInRange "cat-1").unavailable).Nodup ∧
    ∀ x ∈ (resolveOk reportInRange "cat-1").unavailable, 10 ≤ x ∧ x ≤ 11 + 1 :=
  mews_c4_sorted_range reportInRange "cat-1" 10 11 (by decide)
    (by
      intro dates h b hb
      have hd : dates = [10, 11] := by
        simpa [chosenDates, reportInRange] using h.symm
      subst hd
      simp at hb
      omega)

/-- C6: if the target category is absent from the upstream report, or its
availability series length differs from the boundary sequence length, the
request does not fail: the reply is status 200 with an empty unavailable
array, and the corresponding anomaly is reported. -/
theorem mews_c6_anomaly_empty :
    (∀ (m : MewsData) (targetId : String) (dates : List ℕ)
       (cats : List CategoryAvailability),
      chosenDates m = some dates → m.CategoryAvailabilities = some cats →
      cats.find? (fun c => c.CategoryId == targetId) = none →
      resolveOk m targetId = ⟨200, [], some .categoryNotFound⟩) ∧
    (∀ (m : MewsData) (targetId : String) (dates : List ℕ)
       (cats : List CategoryAvailability) (cat : CategoryAvailability),
      chosenDates m = some dates → m.CategoryAvailabilities = some cats →
      cats.find? (fun c => c.CategoryId == targetId) = some cat →
      cat.Availabilities.length ≠ dates.length →
      resolveOk m targetId = ⟨200, [], some .lengthMismatch⟩) := by
  constructor
  · intro m targetId dates cats h1 h2 h3
    have hp : processMews m targetId = ([], some Anomaly.categoryNotFound) := by
      simp [processMews, h1, h2, h3]
    have hr : resolveOk m targetId =
        ⟨200, correctTransform (processMews m targetId).1, (processMews m targetId).2⟩ := rfl
    rw [hr, hp]
    rfl
  · intro m targetId dates cats cat h1 h2 h3 h4
    have hp : processMews m targetId = ([], some Anomaly.lengthMismatch) := by
      simp [processMews, h1, h2, h3, h4]
    have hr : resolveOk m targetId =
        ⟨200, correctTransform (processMews m targetId).1, (processMews m targetId).2⟩ := rfl
    rw [hr, hp]
    rfl

/-- C6 witness: a report without the requested category yields 200 with an
empty array and a category-not-found anomaly; a report whose series length
(1) differs from its boundary count (2) yields 200 with an empty array and a
length-mismatch anomaly. -/
theorem mews_c6_anomaly_empty_witness :
    resolveOk ⟨some [5], none, some []⟩ "cat-1" = ⟨200, [], some .categoryNotFound⟩ ∧
    resolveOk ⟨some [5, 6], none,
        some [{ CategoryId := "cat-1", Availabilities := [JsonVal.num 0] }]⟩ "cat-1" =
      ⟨200, [], some .lengthMismatch⟩ :=
  ⟨mews_c6_anomaly_empty.1 _ "cat-1" [5] [] rfl rfl rfl,
   mews_c6_anomaly_empty.2 _ "cat-1" [5, 6]
     [{ CategoryId := "cat-1", Availabilities := [JsonVal.num 0] }]
     { CategoryId := "cat-1", Availabilities := [JsonVal.num 0] }
     rfl rfl (by decide) (by decide)⟩

/-- C9: with duplicate-free boundary days and an aligned series, position i
marks its day unavailable exactly when the series entry at i is a number
that is ≤ 0; in particular a non-number entry (null, a string, a boolean)
leaves the corresponding day available. -/
theorem mews_c9_number_check (dates : List ℕ) (avails : List JsonVal)
    (hnd : dates.Nodup) (i : ℕ) (hi : i < dates.length) (hi2 : i < avails.length) :
    (dates.get ⟨i, hi⟩ ∈ rawFromPairs (dates.zip avails) ↔
      isUnavailCount (avails.get ⟨i, hi2⟩) = true) := by
  constructor
  · intro h
    obtain ⟨p, hp, hu, heq⟩ := mem_rawFromPairs.mp h
    obtain ⟨n, hn⟩ := List.mem_iff_get.mp hp
    have hlz : (dates.zip avails).length = min dates.length avails.length :=
      List.length_zip dates avails
    have h0 := n.isLt
    have hn1 : (n : ℕ) < dates.length := by omega
    have hn2 : (n : ℕ) < avails.length := by omega
    have hz : (dates.zip avails).get n = (dates.get ⟨n, hn1⟩, avails.get ⟨n, hn2⟩) := by
      simp [List.get_eq_getElem, List.getElem_zip]
    rw [hz] at hn
    subst hn
    have h5 : (⟨(n : ℕ), hn1⟩ : Fin dates.length) = ⟨i, hi⟩ :=
      hnd.get_inj_iff.mp heq
    have hni : (n : ℕ) = i := by
      simpa [Fin.mk.injEq] using h5
    have hsnd : avails.get ⟨(n : ℕ), hn2⟩ = avails.get ⟨i, hi2⟩ := by
      congr 1
      exact Fin.ext hni
    rw [← hsnd]
    exact hu
  · intro h
    apply mem_rawFromPairs.mpr
    refine ⟨(dates.get ⟨i, hi⟩, avails.get ⟨i, hi2⟩), ?_, h, rfl⟩
    have hiz : i < (dates.zip avails).length := by
      rw [List.length_zip]
      omega
    have hz : (dates.zip avails).get ⟨i, hiz⟩ =
        (dates.get ⟨i, hi⟩, avails.get ⟨i, hi2⟩) := by
      simp [List.get_eq_getElem, List.getElem_zip]
    rw [← hz]
    exact List.get_mem _ _ _

/-- C9 witness: boundary days 4, 5, 6 with series entries null, "x", -1;
the null entry at position 0 leaves day 4 available and the numeric entry
-1 at position 2 marks day 6 unavailable. -/
theorem mews_c9_number_check_witness :
    ((4 : ℕ) ∈ rawFromPairs ([4, 5, 6].zip [JsonVal.null, JsonVal.str "x", JsonVal.num (-1)]) ↔
      isUnavailCount JsonVal.null = true) ∧
    ((6 : ℕ) ∈ rawFromPairs ([4, 5, 6].zip [JsonVal.null, JsonVal.str "x", JsonVal.num (-1)]) ↔
      isUnavailCount (JsonVal.num (-1)) = true) :=
  ⟨mews_c9_number_check [4, 5, 6] [JsonVal.null, JsonVal.str "x", JsonVal.num (-1)]
      (by decide) 0 (by decide) (by decide),
   mews_c9_number_check [4, 5, 6] [JsonVal.null, JsonVal.str "x", JsonVal.num (-1)]
      (by decide) 2 (by decide) (by decide)⟩

/-- C10: the resolver's output is canonical — for any two insertion orders of
the same (day, count) pairs, the final unavailable array is identical and
sorted ascending; with the processing and correction passes being pure
functions of the parsed report, a fixed request, configuration, and upstream
response determine the output uniquely. -/
theorem mews_c10_canonical_order (pairs1 pairs2 : List (ℕ × JsonVal))
    (hperm : pairs1.Perm pairs2) :
    correctTransform (rawFromPairs pairs1) = correctTransform (rawFromPairs pairs2) ∧
    (correctTransform (rawFromPairs pairs1)).Sorted (· ≤ ·) := by
  constructor
  · apply sorted_nodup_ext (correctTransform_sorted _)
      (correctTransform_nodup (rawFromPairs_nodup _)) (correctTransform_sorted _)
      (correctTransform_nodup (rawFromPairs_nodup _))
    intro x
    have hm : ∀ y : ℕ, y ∈ rawFromPairs pairs1 ↔ y ∈ rawFromPairs pairs2 := by
      intro y
      rw [mem_rawFromPairs, mem_rawFromPairs]
      constructor
      · rintro ⟨p, hp, h⟩
        exact ⟨p, hperm.mem_iff.mp hp, h⟩
      · rintro ⟨p, hp, h⟩
        exact ⟨p, hperm.mem_iff.mpr hp, h⟩
    rw [mem_correctTransform (rawFromPairs_nodup _),
      mem_correctTransform (rawFromPairs_nodup _)]
    simp only [hm]
  · exact correctTransform_sorted _

/-- C10 witness: the pairs (3, 0) and (1, 0) inserted in either order yield
the same sorted final array. -/
theorem mews_c10_canonical_order_witness :
    correctTransform (rawFromPairs [(3, JsonVal.num 0), (1, JsonVal.num 0)]) =
      correctTransform (rawFromPairs [(1, JsonVal.num 0), (3, JsonVal.num 0)]) ∧
    (correctTransform (rawFromPairs [(3, JsonVal.num 0), (1, JsonVal.num 0)])).Sorted (· ≤ ·) :=
  mews_c10_canonical_order _ _ (List.Perm.swap _ _ _)

/-!
## Request validation and boundary-timestamp construction (string level)

These definitions embed the string-processing parts of the handler: the
regular-expression check of step 3, the date formatters of the named file
(formatToMewsUtc, using the 15:00:00 start offset and a midnight fallback
when Date parsing fails) and of the final variant (the fixed
T22:00:00.000Z suffix), and the brute-force variant that probes all 24
candidate hours.
-/

/-- The check of the four-digit, two-digit, two-digit date regular
expression used on startDate and endDate. -/
def datePattern (s : String) : Bool :=
  match s.data with
  | [y1, y2, y3, y4, h1, m1, m2, h2, d1, d2] =>
    y1.isDigit && y2.isDigit && y3.isDigit && y4.isDigit && (h1 == '-') &&
    m1.isDigit && m2.isDigit && (h2 == '-') && d1.isDigit && d2.isDigit
  | _ => false

def digitVal (c : Char) : ℕ := c.toNat - '0'.toNat

/-- Year, month, day read from a pattern-matching date string. -/
def parseYMD (s : String) : ℕ × ℕ × ℕ :=
  match s.data with
  | [y1, y2, y3, y4, _, m1, m2, _, d1, d2] =>
    (1000 * digitVal y1 + 100 * digitVal y2 + 10 * digitVal y3 + digitVal y4,
     10 * digitVal m1 + digitVal m2,
     10 * digitVal d1 + digitVal d2)
  | _ => (0, 0, 0)

def isLeapYear (y : ℕ) : Bool :=
  (y % 4 == 0 && !(y % 100 == 0)) || (y % 400 == 0)

def daysInMonth (y m : ℕ) : ℕ :=
  if m == 2 then (if isLeapYear y then 29 else 28)
  else if m == 4 || m == 6 || m == 9 || m == 11 then 30
  else 31

/-- Whether `new Date(s + "T...Z")` yields a valid Date in JavaScript for a
date string `s`: the ISO components must form a real Gregorian calendar
date. -/
def jsIsoDateValid (s : String) : Bool :=
  datePattern s &&
    (match parseYMD s with
     | (y, m, d) =>
       decide (1 ≤ m) && decide (m ≤ 12) && decide (1 ≤ d) &&
         decide (d ≤ daysInMonth y m))

/-- formatToMewsUtc of the named file: combine the date with the 15:00:00
start offset; when Date construction fails (calendar-invalid string) the
catch block falls back to the UTC-midnight string instead of failing.  For a
calendar-valid input, toISOString returns exactly the combined string. -/
def formatToMewsUtc (s : String) : String :=
  if jsIsoDateValid s then s ++ "T15:00:00.000Z" else s ++ "T00:00:00.000Z"

/-- The inbound request body fields; `none` models an absent field. -/
structure RequestBody where
  villaId : Option String
  startDate : Option String
  endDate : Option String

/-- JavaScript truthiness of an optional string field: absent and empty
strings are falsy. -/
def truthy : Option String → Bool
  | none => false
  | some s => !(s == "")

/-- The validation condition of step 3:
`!villaId || !startDate || !endDate || !pattern.test(startDate) || !pattern.test(endDate)`
throws; this is its negation (the body is accepted). -/
def validParams (b : RequestBody) : Bool :=
  truthy b.villaId && truthy b.startDate && truthy b.endDate &&
    datePattern (b.startDate.getD "") && datePattern (b.endDate.getD "")

/-- Outcome of the handler before the upstream call: either a 400 rejection,
or the upstream call is issued with the two formatted boundary timestamps. -/
inductive Preflight where
  | rejected (status : ℕ) (msg : String)
  | callUpstream (firstTimeUnitStartUtc lastTimeUnitStartUtc : String)
  deriving DecidableEq

/-- Steps 3 and 4 of the named file: validate the body, then build the
upstream payload boundary timestamps. -/
def preflight (b : RequestBody) : Preflight :=
  if validParams b then
    .callUpstream (formatToMewsUtc (b.startDate.getD ""))
      (formatToMewsUtc (b.endDate.getD ""))
  else
    .rejected 400
      "Missing or invalid parameters: villaId, startDate, endDate required (YYYY-MM-DD)."

/-- C5 counterexample: the request with startDate "2025-13-40" (pattern-valid
but not a valid calendar date) is not rejected: validation passes the
regular-expression check, Date construction fails inside formatToMewsUtc,
the catch block substitutes the midnight fallback timestamp, and the
upstream call is made. -/
theorem mews_c5_counterexample :
    preflight { villaId := some "cat-1", startDate := some "2025-13-40",
                endDate := some "2025-04-05" } =
      .callUpstream "2025-13-40T00:00:00.000Z" "2025-04-05T15:00:00.000Z" := by
  decide

/-- C5 (amended): a request missing villaId, or whose startDate "25-04-01"
fails the pattern check, is rejected with a 400 validation failure before
any upstream call; but a startDate of "2025-13-40" (pattern-valid, not
calendar-valid) passes validation and an upstream call is made, carrying the
midnight fallback timestamp for the invalid date. -/
theorem mews_c5_validation :
    (∀ b : RequestBody, b.villaId = none →
      preflight b = .rejected 400
        "Missing or invalid parameters: villaId, startDate, endDate required (YYYY-MM-DD).") ∧
    (∀ (v : String) (e : Option String),
      preflight { villaId := some v, startDate := some "25-04-01", endDate := e } =
        .rejected 400
          "Missing or invalid parameters: villaId, startDate, endDate required (YYYY-MM-DD).") ∧
    preflight { villaId := some "cat-1", startDate := some "2025-13-40",
                endDate := some "2025-04-05" } =
      .callUpstream "2025-13-40T00:00:00.000Z" "2025-04-05T15:00:00.000Z" := by
  refine ⟨?_, ?_, by decide⟩
  · intro b h
    have hv : validParams b = false := by
      simp [validParams, truthy, h]
    simp [preflight, hv]
  · intro v e
    have hd : datePattern "25-04-01" = false := by decide
    have hv : validParams
        { villaId := some v, startDate := some "25-04-01", endDate := e } = false := by
      simp [validParams, hd]
    simp [preflight, hv]

/-- C5 witness: concrete rejected requests for the two universally
quantified rejection cases of the amended theorem. -/
theorem mews_c5_validation_witness :
    preflight { villaId := none, startDate := some "2025-04-01",
                endDate := some "2025-04-05" } =
      .rejected 400
        "Missing or invalid parameters: villaId, startDate, endDate required (YYYY-MM-DD)." ∧
    preflight { villaId := some "cat-1", startDate := some "25-04-01",
                endDate := some "2025-04-05" } =
      .rejected 400
        "Missing or invalid parameters: villaId, startDate, endDate required (YYYY-MM-DD)." :=
  ⟨mews_c5_validation.1 _ rfl, mews_c5_validation.2.1 "cat-1" (some "2025-04-05")⟩

/-- The fixed day-start time-of-day suffix of the final handler variant:
formatToMewsRequiredTime returns the date with T22:00:00.000Z appended
(after re-checking the date pattern, throwing otherwise). -/
def formatToMewsRequiredTime (s : String) : Except String String :=
  if datePattern s then .ok (s ++ "T22:00:00.000Z")
  else .error ("Invalid date format: " ++ s ++ ". Expected YYYY-MM-DD.")

/-- The boundary-timestamp pairs of the upstream requests issued by the
final handler variant for a validated query: one single payload (a throw in
the formatter means no upstream request at all). -/
def mewsRequestsFinal (s e : String) : List (String × String) :=
  match formatToMewsRequiredTime s, formatToMewsRequiredTime e with
  | .ok fs, .ok fe => [(fs, fe)]
  | _, _ => []

/-- The candidate hours 0..23 of the brute-force handler variant
(`Array.from({ length: 24 }, (_, i) => i)`). -/
def possibleHours : List ℕ := List.range 24

/-- Two-digit zero-padded hour (`hour.toString().padStart(2, '0')`). -/
def pad2 (h : ℕ) : String :=
  if h < 10 then "0" ++ toString h else toString h

/-- formatTimeWithHour of the brute-force variant. -/
def formatTimeWithHour (s : String) (h : ℕ) : String :=
  s ++ "T" ++ pad2 h ++ ":00:00.000Z"

/-- The boundary-timestamp pairs of the upstream requests the brute-force
variant is prepared to issue for one inbound query: one per candidate hour,
probed in order against the live upstream service. -/
def bruteForceAttempts (s e : String) : List (String × String) :=
  possibleHours.map (fun h => (formatTimeWithHour s h, formatTimeWithHour e h))

/-- C2 counterexample: the repository's brute-force resolver variant guesses
the day-boundary anchor at request time: for the concrete query dates
2025-04-01 and 2025-04-05 it prepares 24 pairwise-distinct candidate first
boundary timestamps, one per hour of the day, probed against the live
upstream service — not a single configured offset. -/
theorem mews_c2_counterexample :
    (bruteForceAttempts "2025-04-01" "2025-04-05").length = 24 ∧
    ((bruteForceAttempts "2025-04-01" "2025-04-05").map Prod.fst).Nodup ∧
    ¬((bruteForceAttempts "2025-04-01" "2025-04-05").length = 1) := by
  decide

/-- C2 (amended): the final handler variant applies one single fixed
day-start time-of-day — the hardcoded suffix T22:00:00.000Z, not a
configured value — uniformly to both the start and the end date, and issues
exactly one upstream request per query, with no search over candidate
hours; the brute-force search over all 24 hours exists in a superseded
variant kept in the repository. -/
theorem mews_c2_single_offset (s e : String)
    (hs : datePattern s = true) (he : datePattern e = true) :
    mewsRequestsFinal s e = [(s ++ "T22:00:00.000Z", e ++ "T22:00:00.000Z")] ∧
    (mewsRequestsFinal s e).length = 1 := by
  have h1 : formatToMewsRequiredTime s = .ok (s ++ "T22:00:00.000Z") := by
    simp [formatToMewsRequiredTime, hs]
  have h2 : formatToMewsRequiredTime e = .ok (e ++ "T22:00:00.000Z") := by
    simp [formatToMewsRequiredTime, he]
  constructor
  · rw [mewsRequestsFinal, h1, h2]
  · rw [mewsRequestsFinal, h1, h2]
    rfl

/-- C2 witness: the single request for the query 2025-04-01 .. 2025-04-05,
with the same fixed suffix on both boundary timestamps. -/
theorem mews_c2_single_offset_witness :
    mewsRequestsFinal "2025-04-01" "2025-04-05" =
      [("2025-04-01T22:00:00.000Z", "2025-04-05T22:00:00.000Z")] ∧
    (mewsRequestsFinal "2025-04-01" "2025-04-05").length = 1 :=
  mews_c2_single_offset "2025-04-01" "2025-04-05" (by decide) (by decide)

/-!
## Upstream-failure error path (final variant, steps 5 and 7)

On a non-success upstream status the final variant reads the upstream error
body, tries to parse it as JSON, and throws
`Mews API request failed with status S. Message: M` where `M` is
`errorJson.Message || errorBodyText`; the catch block then replies 500 with
`{ error: "An internal server error occurred.", details: error.message }` —
the details field carries the exception message to the caller.
-/

/-- Whether the first list is an initial segment of the second. -/
def leadsChars : List Char → List Char → Bool
  | [], _ => true
  | _ :: _, [] => false
  | a :: as, b :: bs => a == b && leadsChars as bs

/-- Whether the first list occurs contiguously anywhere inside the second. -/
def occursChars : List Char → List Char → Bool
  | ns, [] => ns.isEmpty
  | ns, h :: hs => leadsChars ns (h :: hs) || occursChars ns hs

/-- Whether `needle` occurs as a contiguous substring of `hay`. -/
def strOccurs (needle hay : String) : Bool :=
  occursChars needle.data hay.data

theorem leadsChars_self : ∀ l : List Char, leadsChars l l = true
  | [] => rfl
  | a :: as => by simp [leadsChars, leadsChars_self as]

theorem occursChars_append : ∀ (pre ns : List Char),
    occursChars ns (pre ++ ns) = true
  | [], ns => by
      cases ns with
      | nil => rfl
      | cons h hs => simp [occursChars, leadsChars_self]
  | p :: pre, ns => by
      simp [occursChars, occursChars_append pre ns]

theorem strOccurs_append (pre needle : String) :
    strOccurs needle (pre ++ needle) = true := by
  have hdata : (pre ++ needle).data = pre.data ++ needle.data := rfl
  rw [strOccurs, hdata]
  exact occursChars_append pre.data needle.data

/-- `errorJson.Message || errorBodyText`: the parsed Message field when it is
present and truthy, otherwise the raw upstream error body text. -/
def jsOrElse (msgField : Option String) (bodyText : String) : String :=
  match msgField with
  | some m => if m == "" then bodyText else m
  | none => bodyText

/-- The exception message thrown for a non-success upstream response. -/
def upstreamFailMessage (status : ℕ) (msgField : Option String)
    (bodyText : String) : String :=
  ("Mews API request failed with status " ++ toString status ++ ". Message: ") ++
    jsOrElse msgField bodyText

/-- The caller-visible 500 reply of the final variant's catch block. -/
structure ErrorResponse where
  status : ℕ
  error : String
  details : String

/-- The caller-visible reply produced when the upstream call returns a
non-success status. -/
def mewsFailureResponse (status : ℕ) (msgField : Option String)
    (bodyText : String) : ErrorResponse :=
  { status := 500
    error := "An internal server error occurred."
    details := upstreamFailMessage status msgField bodyText }

/-- C7 counterexample: for an upstream failure with status 400 and raw error
body "Mews upstream raw error body: invalid ServiceId" (unparseable as
JSON, so the Message fallback picks the raw body), the caller-visible reply
contains the raw upstream error body verbatim inside its details field —
the response body does leak upstream error internals. -/
theorem mews_c7_counterexample :
    strOccurs "Mews upstream raw error body: invalid ServiceId"
      (mewsFailureResponse 400 none
        "Mews upstream raw error body: invalid ServiceId").details = true ∧
    (mewsFailureResponse 400 none
      "Mews upstream raw error body: invalid ServiceId").status = 500 := by
  constructor
  · decide
  · rfl

/-- C7 (amended): for every upstream failure the caller receives status 500
with the generic summary "An internal server error occurred."; however the
reply also carries a details field equal to the internal exception message,
which embeds the upstream error body's Message field — or, when that is
absent or empty, the raw upstream error body text — so upstream error
internals do reach the caller. -/
theorem mews_c7_error_reply (status : ℕ) (msgField : Option String)
    (bodyText : String) :
    (mewsFailureResponse status msgField bodyText).status = 500 ∧
    (mewsFailureResponse status msgField bodyText).error =
      "An internal server error occurred." ∧
    strOccurs (jsOrElse msgField bodyText)
      (mewsFailureResponse status msgField bodyText).details = true :=
  ⟨rfl, rfl, strOccurs_append _ _⟩
